import Mathlib

set_option maxRecDepth 8000

/-!
A verification development for the collaborative typing game
(`src/server/src/main.rs`, `src/client/src/main.rs`).

Modelling conventions:
* Rust `String`/`&str` text is a `List Char`; `str::len` (UTF-8 byte
  count) is `utf8Len`.
* `std::time::Instant` values and `f64` arithmetic are modelled over `ℚ`
  (the typing-speed formula uses only division and multiplication by
  constants, which the rational model reflects exactly).
* Fallible parsing returns `Option`; a parser consumes from the front of
  a `List Char` and returns the remaining input.
-/

/-- UTF-8 byte length of a string, as Rust's `str::len` computes it. -/
def utf8Len (s : List Char) : Nat :=
  (s.map Char.utf8Size).sum

/-- Rust `char::is_whitespace`: the Unicode `White_Space` property
(U+0009..U+000D, U+0020, U+0085, U+00A0, U+1680, U+2000..U+200A,
U+2028, U+2029, U+202F, U+205F, U+3000). -/
def isRustWhitespace (c : Char) : Bool :=
  let n := c.toNat
  (0x09 ≤ n && n ≤ 0x0D) || n == 0x20 || n == 0x85 || n == 0xA0 || n == 0x1680 ||
  (0x2000 ≤ n && n ≤ 0x200A) || n == 0x2028 || n == 0x2029 || n == 0x202F ||
  n == 0x205F || n == 0x3000

/-- Rust `str::trim`: remove leading and trailing whitespace. -/
def rustTrim (s : List Char) : List Char :=
  ((s.dropWhile isRustWhitespace).reverse.dropWhile isRustWhitespace).reverse

/-- Rust `char::is_alphanumeric` (Unicode `Alphabetic ∪ Nd ∪ Nl ∪ No`),
modelled exactly on code points up to U+00FF (ASCII plus the Latin-1
supplement, whose alphanumerics are ª ² ³ µ ¹ º ¼ ½ ¾ and the letters
U+00C0..U+00FF except × and ÷); code points above U+00FF are
conservatively classified as not alphanumeric.  Every concrete character
appearing in this development lies in the exactly-modelled range. -/
def rustIsAlphanumeric (c : Char) : Bool :=
  let n := c.toNat
  c.isAlphanum || n == 0xAA || n == 0xB2 || n == 0xB3 || n == 0xB5 || n == 0xB9 ||
  n == 0xBA || (0xBC ≤ n && n ≤ 0xBE) ||
  (0xC0 ≤ n && n ≤ 0xFF && n ≠ 0xD7 && n ≠ 0xF7)

/-! ## Server (coordinator), `src/server/src/main.rs`

The connection handler's event loop (lines 34-50): on an inbound
message, if its byte length is exactly 1 it is pushed onto the shared
sentence and the new full sentence is broadcast; otherwise nothing
happens.  `serverStep` returns the new shared sentence together with the
snapshot published to the broadcast channel (`none` when nothing is
published). -/

/-- One iteration of the handler loop for an inbound message
(`src/server/src/main.rs` lines 36-43). -/
def serverStep (sentence msg : List Char) : List Char × Option (List Char) :=
  if utf8Len msg = 1 then
    (sentence ++ msg, some (sentence ++ msg))
  else
    (sentence, none)

/-- The shared sentence after a sequence of inbound messages has been
handled, starting from `sentence`. -/
def serverRun (sentence : List Char) (msgs : List (List Char)) : List Char :=
  msgs.foldl (fun s m => (serverStep s m).1) sentence

/-- On accepting a connection the handler reads the current shared
sentence and sends it to the new participant before entering its event
loop (`src/server/src/main.rs` lines 28-32). -/
def acceptSnapshot (sentence : List Char) : List Char :=
  sentence

/-! ## Client, `src/client/src/main.rs` -/

/-- `AppState` (client lines 25-31). -/
inductive AppState where
  | Welcome
  | Connecting
  | Connected
  | Disconnected
deriving DecidableEq, Repr

/-- `AppEvent` (client lines 33-39). -/
inductive AppEvent where
  | SendWord (w : List Char)
  | Connect
  | Disconnect
  | Quit
deriving DecidableEq, Repr

/-- `App` (client lines 41-55).  `typing_speed` (`f64`) and
`start_time` (`Option<Instant>`) are modelled over `ℚ`. -/
structure App where
  state : AppState
  current_input : List Char
  sentence : List Char
  connection_status : List Char
  users_count : Nat
  typing_speed : ℚ
  start_time : Option ℚ
  chars_typed : Nat
  error_message : Option (List Char)
  server_url : List Char
  should_quit : Bool
  show_help : Bool
deriving DecidableEq, Repr

/-- `App::new` (client lines 77-92). -/
def App.new (server_url : List Char) : App where
  state := .Welcome
  current_input := []
  sentence := []
  connection_status := "Not connected".toList
  users_count := 1
  typing_speed := 0
  start_time := none
  chars_typed := 0
  error_message := none
  server_url := server_url
  should_quit := false
  show_help := false

/-- `App::connect` (client lines 96-100). -/
def App.connect (a : App) : App :=
  { a with state := .Connecting, connection_status := "Connecting...".toList,
           error_message := none }

/-- `App::set_connected` (client lines 102-106); `now` is the value of
`Instant::now()` recorded as the session start. -/
def App.set_connected (a : App) (now : ℚ) : App :=
  { a with state := .Connected, connection_status := "Connected".toList,
           start_time := some now }

/-- `App::set_disconnected` (client lines 108-114): the error message is
overwritten only when a new error value is supplied. -/
def App.set_disconnected (a : App) (error : Option (List Char)) : App :=
  let a1 := { a with state := .Disconnected,
                     connection_status := "Disconnected".toList }
  match error with
  | some err => { a1 with error_message := some err }
  | none => a1

/-- `App::update_typing_speed` (client lines 128-136); `now` is the
current time, so `now - start` is `start.elapsed()` in seconds. -/
def App.update_typing_speed (a : App) (now : ℚ) : App :=
  match a.start_time with
  | some start =>
    let elapsed := now - start
    if 0 < elapsed then
      let words := (a.chars_typed : ℚ) / 5
      { a with typing_speed := words / elapsed * 60 }
    else a
  | none => a

/-- `App::send_word` (client lines 116-126): a buffer that is non-empty
after trimming becomes a contribution (`word.len()` counts UTF-8
bytes). -/
def App.send_word (a : App) (now : ℚ) : App × Option (List Char) :=
  if rustTrim a.current_input ≠ [] then
    let word := rustTrim a.current_input
    let a1 := { a with current_input := [],
                       chars_typed := a.chars_typed + (utf8Len word + 1) }
    (App.update_typing_speed a1 now, some word)
  else
    (a, none)

/-- `App::update_sentence` (client lines 138-140). -/
def App.update_sentence (a : App) (new_sentence : List Char) : App :=
  { a with sentence := new_sentence }

/-- `App::toggle_help` (client lines 142-144). -/
def App.toggle_help (a : App) : App :=
  { a with show_help := !a.show_help }

/-- The key codes `handle_key_event` distinguishes (crossterm
`KeyCode`); all others fall into the wildcard arm. -/
inductive KeyCode where
  | Chr (c : Char)
  | Enter
  | Backspace
  | Esc
  | F (n : Nat)
  | Other
deriving DecidableEq, Repr

/-- `handle_key_event` (client lines 328-398): the app mutation together
with the event sent to the network task, if any.  `now` stands for
`Instant::now()` inside the `send_word` call. -/
def handle_key_event (key : KeyCode) (a : App) (now : ℚ) : App × Option AppEvent :=
  if a.state = .Welcome then
    match key with
    | .Enter => (a.connect, some .Connect)
    | .Chr c =>
      if c = 'q' ∨ c = 'Q' then ({ a with should_quit := true }, none)
      else if c = 'h' ∨ c = 'H' then (a.toggle_help, none)
      else (a, none)
    | .Backspace => (a, none)
    | .Esc => (a, none)
    | .F _ => (a, none)
    | .Other => (a, none)
  else if a.state = .Connected then
    match key with
    | .Chr c => ({ a with current_input := a.current_input ++ [c] }, none)
    | .Backspace => ({ a with current_input := a.current_input.dropLast }, none)
    | .Enter => ((a.send_word now).1, (a.send_word now).2.map fun w => .SendWord w)
    | .Esc => ({ a with state := .Welcome, current_input := [] }, some .Disconnect)
    | .F n => if n = 1 then (a.toggle_help, none) else (a, none)
    | .Other => (a, none)
  else if a.state = .Connecting then
    match key with
    | .Esc => ({ a with state := .Welcome }, none)
    | .Chr c =>
      if c = 'q' ∨ c = 'Q' then ({ a with should_quit := true }, none) else (a, none)
    | .Enter => (a, none)
    | .Backspace => (a, none)
    | .F _ => (a, none)
    | .Other => (a, none)
  else -- a.state = .Disconnected
    match key with
    | .Enter => (a.connect, some .Connect)
    | .Esc => ({ a with state := .Welcome }, none)
    | .Chr c =>
      if c = 'q' ∨ c = 'Q' then ({ a with should_quit := true }, none) else (a, none)
    | .Backspace => (a, none)
    | .F _ => (a, none)
    | .Other => (a, none)

/-! ## Host validation, `src/client/src/main.rs` lines 768-790

`is_valid_ip_or_hostname` first tries `addr.parse::<Ipv4Addr>()` and
`addr.parse::<Ipv6Addr>()`; the models below follow the parser in Rust's
`core::net::parser` (`read_number`, `read_ipv4_addr`, `read_groups`,
`read_ipv6_addr`; `FromStr` additionally requires the whole input to be
consumed). -/

/-- `char::to_digit radix`. -/
def digitVal (radix : Nat) (c : Char) : Option Nat :=
  if '0' ≤ c ∧ c ≤ '9' then
    let d := c.toNat - '0'.toNat
    if d < radix then some d else none
  else if 'a' ≤ c ∧ c ≤ 'z' then
    let d := c.toNat - 'a'.toNat + 10
    if d < radix then some d else none
  else if 'A' ≤ c ∧ c ≤ 'Z' then
    let d := c.toNat - 'A'.toNat + 10
    if d < radix then some d else none
  else none

/-- `Parser::read_number(radix, Some(maxDigits), allowZero)` reading a
checked unsigned integer bounded by `maxVal`: consumes the maximal run
of digits, fails on an empty run, on more than `maxDigits` digits, on
checked-arithmetic overflow past `maxVal`, and (when `allowZero` is
false) on a leading zero in a multi-digit run. -/
def readNumber (radix maxDigits maxVal : Nat) (allowZero : Bool)
    (s : List Char) : Option (Nat × List Char) :=
  let ds := s.takeWhile fun c => (digitVal radix c).isSome
  let rest := s.dropWhile fun c => (digitVal radix c).isSome
  if ds.isEmpty then none
  else if maxDigits < ds.length then none
  else
    let v := ds.foldl (fun acc c => acc * radix + (digitVal radix c).getD 0) 0
    if maxVal < v then none
    else if !allowZero && ds.head? == some '0' && 1 < ds.length then none
    else some (v, rest)

/-- `Parser::read_given_char`. -/
def readGivenChar (c : Char) (s : List Char) : Option (List Char) :=
  match s with
  | d :: rest => if d = c then some rest else none
  | [] => none

/-- `Parser::read_ipv4_addr`: four octets (each 1-3 decimal digits, no
leading zero, value ≤ 255) separated by `'.'`; each failing step makes
the whole read fail. -/
def readIpv4Addr (s : List Char) : Option ((Nat × Nat × Nat × Nat) × List Char) :=
  match readNumber 10 3 255 false s with
  | none => none
  | some (a, s1) =>
    match readGivenChar '.' s1 with
    | none => none
    | some s2 =>
      match readNumber 10 3 255 false s2 with
      | none => none
      | some (b, s3) =>
        match readGivenChar '.' s3 with
        | none => none
        | some s4 =>
          match readNumber 10 3 255 false s4 with
          | none => none
          | some (c, s5) =>
            match readGivenChar '.' s5 with
            | none => none
            | some s6 =>
              match readNumber 10 3 255 false s6 with
              | none => none
              | some (d, s7) => some ((a, b, c, d), s7)

/-- `Parser::read_separator(':', i, inner)`: for every group after the
first, a `':'` must precede the group; backtracks on failure. -/
def readSeparated {α : Type} (i : Nat) (inner : List Char → Option (α × List Char))
    (s : List Char) : Option (α × List Char) :=
  if i = 0 then inner s
  else
    match s with
    | ':' :: rest => inner rest
    | _ => none

/-- `read_groups` of `read_ipv6_addr`: reads up to `remaining` further
16-bit hexadecimal groups at absolute group index `i`, where a trailing
embedded IPv4 address may replace the final two groups.  Returns the
groups read, whether an embedded IPv4 address ended them, and the
remaining input. -/
def readGroups : Nat → Nat → List Char → List Nat × Bool × List Char
  | 0, _, s => ([], false, s)
  | remaining + 1, i, s =>
    match (if 1 ≤ remaining then readSeparated i readIpv4Addr s else none) with
    | some ((a, b, c, d), rest) => ([a * 256 + b, c * 256 + d], true, rest)
    | none =>
      match readSeparated i (readNumber 16 4 0xFFFF true) s with
      | some (g, rest) =>
        let (gs, f, r) := readGroups remaining (i + 1) rest
        (g :: gs, f, r)
      | none => ([], false, s)

/-- `Parser::read_ipv6_addr`: up to 8 groups, a `"::"` abbreviation
standing for the zero groups in the middle, and no embedded IPv4
address before the `"::"`. -/
def readIpv6Addr (s : List Char) : Option (List Nat × List Char) :=
  let (head, headIpv4, s1) := readGroups 8 0 s
  if head.length = 8 then some (head, s1)
  else if headIpv4 then none
  else
    match readGivenChar ':' s1 with
    | none => none
    | some s2 =>
      match readGivenChar ':' s2 with
      | none => none
      | some s3 =>
        let limit := 8 - (head.length + 1)
        let (tail, _, s4) := readGroups limit 0 s3
        some (head ++ List.replicate (8 - head.length - tail.length) 0 ++ tail, s4)

/-- `addr.parse::<Ipv4Addr>().is_ok()`: the parse succeeds and consumes
the whole input. -/
def parseIpv4 (s : List Char) : Bool :=
  match readIpv4Addr s with
  | some (_, []) => true
  | _ => false

/-- `addr.parse::<Ipv6Addr>().is_ok()`. -/
def parseIpv6 (s : List Char) : Bool :=
  match readIpv6Addr s with
  | some (_, []) => true
  | _ => false

/-- `is_valid_ip_or_hostname` (client lines 768-790).  Note
`addr.len() > 253` counts UTF-8 bytes and `c.is_alphanumeric()` is the
Unicode classification. -/
def is_valid_ip_or_hostname (addr : List Char) : Bool :=
  if parseIpv4 addr then true
  else if parseIpv6 addr then true
  else if addr.isEmpty || 253 < utf8Len addr then false
  else
    addr.all (fun c => rustIsAlphanumeric c || c == '.' || c == '-')
    && !(addr.head? == some '-') && !(addr.getLast? == some '-')
    && !(addr.head? == some '.') && !(addr.getLast? == some '.')

/-- From the spec's words (§6): a hostname is "non-empty, ≤253
characters, alphanumeric/`.`/`-` only, not starting or ending with `.`
or `-`" — with "characters" read as characters, i.e. the length in
`Char`s. -/
def specHostnameChars (addr : List Char) : Prop :=
  addr ≠ [] ∧ addr.length ≤ 253 ∧
  (∀ c ∈ addr, rustIsAlphanumeric c = true ∨ c = '.' ∨ c = '-') ∧
  addr.head? ≠ some '.' ∧ addr.head? ≠ some '-' ∧
  addr.getLast? ≠ some '.' ∧ addr.getLast? ≠ some '-'

/-- From the spec's words (§6): the set of accepted host identifiers —
an IPv4 literal, an IPv6 literal, or a hostname per
`specHostnameChars`. -/
def specAllowsChars (addr : List Char) : Prop :=
  parseIpv4 addr = true ∨ parseIpv6 addr = true ∨ specHostnameChars addr

/-- The amended hostname rule: as `specHostnameChars` but with the
length bound measured in UTF-8 bytes, as `addr.len()` does. -/
def specHostnameBytes (addr : List Char) : Prop :=
  addr ≠ [] ∧ utf8Len addr ≤ 253 ∧
  (∀ c ∈ addr, rustIsAlphanumeric c = true ∨ c = '.' ∨ c = '-') ∧
  addr.head? ≠ some '.' ∧ addr.head? ≠ some '-' ∧
  addr.getLast? ≠ some '.' ∧ addr.getLast? ≠ some '-'

/-- The amended accepted set: IPv4 literal, IPv6 literal, or hostname
per `specHostnameBytes`. -/
def specAllowsBytes (addr : List Char) : Prop :=
  parseIpv4 addr = true ∨ parseIpv6 addr = true ∨ specHostnameBytes addr

example : parseIpv4 "127.0.0.1".toList = true := by decide
example : parseIpv6 "::1".toList = true := by decide
example : parseIpv6 "1:2:3:4:5:6:7:8".toList = true := by decide
example : parseIpv6 "::ffff:1.2.3.4".toList = true := by decide
example : parseIpv6 "1.2.3.4".toList = false := by decide
example : parseIpv6 ":::".toList = false := by decide
example : parseIpv4 "01.0.0.1".toList = false := by decide
example : parseIpv4 "256.0.0.1".toList = false := by decide
example : is_valid_ip_or_hostname "example.com".toList = true := by decide
example : is_valid_ip_or_hostname "-bad.com".toList = false := by decide

/-! ## Helper lemmas -/

/-- One handler step only ever appends to the shared sentence. -/
lemma serverStep_fst_extends (s msg : List Char) :
    ∃ t, (serverStep s msg).1 = s ++ t := by
  unfold serverStep
  split
  · exact ⟨msg, rfl⟩
  · exact ⟨[], by simp⟩

/-- Handling any message sequence only ever appends to the shared
sentence. -/
lemma serverRun_extends (msgs : List (List Char)) :
    ∀ s, ∃ t, serverRun s msgs = s ++ t := by
  induction msgs with
  | nil => exact fun s => ⟨[], by simp [serverRun]⟩
  | cons m ms ih =>
    intro s
    obtain ⟨t₁, h₁⟩ := serverStep_fst_extends s m
    obtain ⟨t₂, h₂⟩ := ih (serverStep s m).1
    exact ⟨t₁ ++ t₂, by simp [serverRun] at h₂ ⊢; rw [h₂, h₁, List.append_assoc]⟩

lemma serverRun_append (s : List Char) (l₁ l₂ : List (List Char)) :
    serverRun s (l₁ ++ l₂) = serverRun (serverRun s l₁) l₂ := by
  simp [serverRun, List.foldl_append]

/-- Fields of `App` other than `typing_speed` are untouched by
`update_typing_speed`. -/
lemma update_typing_speed_fields (a : App) (now : ℚ) :
    (a.update_typing_speed now).state = a.state ∧
    (a.update_typing_speed now).current_input = a.current_input ∧
    (a.update_typing_speed now).sentence = a.sentence ∧
    (a.update_typing_speed now).connection_status = a.connection_status ∧
    (a.update_typing_speed now).users_count = a.users_count ∧
    (a.update_typing_speed now).start_time = a.start_time ∧
    (a.update_typing_speed now).chars_typed = a.chars_typed ∧
    (a.update_typing_speed now).error_message = a.error_message ∧
    (a.update_typing_speed now).server_url = a.server_url ∧
    (a.update_typing_speed now).should_quit = a.should_quit ∧
    (a.update_typing_speed now).show_help = a.show_help := by
  cases ha : a.start_time with
  | none => simp [App.update_typing_speed, ha]
  | some start =>
    simp only [App.update_typing_speed, ha]
    split <;> simp [ha]

/-! ## The claims -/

/-- C1: for every sequence of accepted contributions the shared sentence
only ever grows by appending: each handler step extends the previous
sentence (so each published snapshot extends the previous one, sharing
it as a prefix), and over any message sequence the sentence's length is
non-decreasing. -/
theorem server_snapshots_grow_monotonically :
    (∀ s msg, ∃ t, (serverStep s msg).1 = s ++ t) ∧
    (∀ s msgs, (∃ t, serverRun s msgs = s ++ t) ∧
      s.length ≤ (serverRun s msgs).length) := by
  refine ⟨serverStep_fst_extends, fun s msgs => ?_⟩
  obtain ⟨t, ht⟩ := serverRun_extends msgs s
  exact ⟨⟨t, ht⟩, by rw [ht]; simp⟩

/-- C2: an inbound message that passes the handler's validation (UTF-8
byte length exactly 1) is appended to the shared sentence and the new
full sentence is published; a message that fails validation is silently
dropped — sentence unchanged, nothing published, nothing else sent back
to the participant. -/
theorem server_validation_branches :
    (∀ s msg, utf8Len msg = 1 → serverStep s msg = (s ++ msg, some (s ++ msg))) ∧
    (∀ s msg, utf8Len msg ≠ 1 → serverStep s msg = (s, none)) := by
  constructor
  · intro s msg h
    simp [serverStep, h]
  · intro s msg h
    simp [serverStep, h]

/-- C9: the handler accepts a message exactly when its UTF-8 byte length
is 1; a single multi-byte character such as `'é'` (2 bytes) is silently
dropped, while any single-byte character — a single space included — is
appended and broadcast. -/
theorem server_accepts_iff_one_byte :
    (∀ s msg, (serverStep s msg).2 ≠ none ↔ utf8Len msg = 1) ∧
    (∀ s msg, utf8Len msg = 1 → (serverStep s msg).1 = s ++ msg) ∧
    (∀ s, serverStep s ['é'] = (s, none)) ∧
    (∀ s, serverStep s [' '] = (s ++ [' '], some (s ++ [' ']))) := by
  refine ⟨fun s msg => ?_, fun s msg h => by simp [serverStep, h], fun s => ?_, fun s => ?_⟩
  · unfold serverStep
    split <;> simp_all
  · have h2 : utf8Len ['é'] = 2 := by decide
    simp [serverStep, h2]
  · have h1 : utf8Len [' '] = 1 := by decide
    simp [serverStep, h1]

/-- C7: the initial snapshot a newly accepted participant is sent is the
current shared sentence; after any message sequence extending the first
`K` accepted contributions it extends — and is at least as long as — the
sentence after those first `K` contributions. -/
theorem initial_snapshot_covers_first_k :
    ∀ msgs K,
      (∃ t, acceptSnapshot (serverRun [] msgs) = serverRun [] (List.take K msgs) ++ t) ∧
      (serverRun [] (List.take K msgs)).length ≤ (acceptSnapshot (serverRun [] msgs)).length := by
  intro msgs K
  have hsplit : List.take K msgs ++ List.drop K msgs = msgs := List.take_append_drop K msgs
  obtain ⟨t, ht⟩ := serverRun_extends (List.drop K msgs) (serverRun [] (List.take K msgs))
  have : serverRun [] msgs = serverRun [] (List.take K msgs) ++ t := by
    conv_lhs => rw [← hsplit]
    rw [serverRun_append, ht]
  exact ⟨⟨t, this⟩, by rw [acceptSnapshot, this]; simp⟩

/-- C10: `set_disconnected` with no error value changes only the state
and the connection-status string; the stored error message and every
other field are left unchanged. -/
theorem set_disconnected_none_frame :
    (∀ a, App.set_disconnected a none =
      { a with state := .Disconnected, connection_status := "Disconnected".toList }) ∧
    (∀ a, (App.set_disconnected a none).error_message = a.error_message) ∧
    (∀ a, (App.set_disconnected a none).state = AppState.Disconnected) ∧
    (∀ a, (App.set_disconnected a none).connection_status = "Disconnected".toList) ∧
    (∀ a, (App.set_disconnected a none).current_input = a.current_input ∧
      (App.set_disconnected a none).sentence = a.sentence ∧
      (App.set_disconnected a none).chars_typed = a.chars_typed ∧
      (App.set_disconnected a none).start_time = a.start_time ∧
      (App.set_disconnected a none).typing_speed = a.typing_speed ∧
      (App.set_disconnected a none).users_count = a.users_count ∧
      (App.set_disconnected a none).server_url = a.server_url ∧
      (App.set_disconnected a none).should_quit = a.should_quit ∧
      (App.set_disconnected a none).show_help = a.show_help) := by
  exact ⟨fun a => rfl, fun a => rfl, fun a => rfl, fun a => rfl,
    fun a => ⟨rfl, rfl, rfl, rfl, rfl, rfl, rfl, rfl, rfl⟩⟩

/-- `send_word` leaves `should_quit` unchanged. -/
lemma send_word_should_quit (a : App) (now : ℚ) :
    (a.send_word now).1.should_quit = a.should_quit := by
  unfold App.send_word
  split
  · exact (update_typing_speed_fields _ now).2.2.2.2.2.2.2.2.2.1
  · rfl

/-- C3 counterexample: a single space is a whitespace-only message, yet
the coordinator appends it to the shared text (its UTF-8 byte length is
exactly 1, so it passes the handler's validation). -/
theorem whitespace_message_appended_counterexample :
    [' '].all isRustWhitespace = true ∧
    (serverStep [] [' ']).1 ≠ [] ∧
    serverStep [] [' '] = ([' '], some [' ']) := by
  decide

/-- C3 (amended): an empty or whitespace-only client buffer never
becomes a contribution and leaves the whole session state (cumulative
characters typed included) unchanged; at the coordinator a
whitespace-only message leaves the shared text unchanged unless its
UTF-8 byte length is exactly 1 — a single whitespace character, such as
one space, is appended. -/
theorem empty_submission_never_contributes :
    (∀ (a : App) (now : ℚ), rustTrim a.current_input = [] →
      App.send_word a now = (a, none)) ∧
    (∀ s msg, msg.all isRustWhitespace = true → utf8Len msg ≠ 1 →
      serverStep s msg = (s, none)) ∧
    (∀ s, serverStep s [' '] = (s ++ [' '], some (s ++ [' ']))) := by
  refine ⟨fun a now h => ?_, fun s msg _ h => by simp [serverStep, h], fun s => ?_⟩
  · simp [App.send_word, h]
  · have h1 : utf8Len [' '] = 1 := by decide
    simp [serverStep, h1]

/-- C5: a buffer that is non-empty after trimming is submitted as the
trimmed word, the buffer is cleared, and cumulative characters typed
grows by exactly the word's length plus one (the implicit separator);
lengths are UTF-8 byte counts, as `word.len()` computes them. -/
theorem send_word_submits_trimmed_buffer (a : App) (now : ℚ)
    (h : rustTrim a.current_input ≠ []) :
    (App.send_word a now).2 = some (rustTrim a.current_input) ∧
    (App.send_word a now).1.current_input = [] ∧
    (App.send_word a now).1.chars_typed =
      a.chars_typed + (utf8Len (rustTrim a.current_input) + 1) := by
  have hfields := update_typing_speed_fields
    { a with current_input := [],
             chars_typed := a.chars_typed + (utf8Len (rustTrim a.current_input) + 1) } now
  unfold App.send_word
  rw [if_pos h]
  exact ⟨rfl, hfields.2.1, hfields.2.2.2.2.2.2.1⟩

/-- Witness for C5 at the concrete buffer `"hi "`: trimming gives the
non-empty word `"hi"`, which is submitted with the counter growing by
3. -/
theorem send_word_submits_trimmed_buffer_witness :
    rustTrim ['h', 'i', ' '] ≠ [] ∧
    (App.send_word { App.new [] with current_input := ['h', 'i', ' '] } 0).2 =
      some (rustTrim ['h', 'i', ' ']) ∧
    (App.send_word { App.new [] with current_input := ['h', 'i', ' '] } 0).1.chars_typed =
      0 + (utf8Len (rustTrim ['h', 'i', ' ']) + 1) := by
  have h := send_word_submits_trimmed_buffer
    { App.new [] with current_input := ['h', 'i', ' '] } 0 (by decide)
  exact ⟨by decide, h.1, h.2.2⟩

/-- C6: whenever the elapsed time is positive, the recomputed typing
speed equals `(charsTyped / 5) / (elapsedSeconds / 60)`; in particular
50 characters over 10 seconds give exactly 60.  (`f64` arithmetic is
modelled over `ℚ`; every quantity in the particular instance is exactly
representable.) -/
theorem typing_speed_formula :
    (∀ (a : App) (now start : ℚ), a.start_time = some start → 0 < now - start →
      (a.update_typing_speed now).typing_speed =
        ((a.chars_typed : ℚ) / 5) / ((now - start) / 60)) ∧
    (∀ (a : App) (now start : ℚ), a.start_time = some start → now - start = 10 →
      a.chars_typed = 50 → (a.update_typing_speed now).typing_speed = 60) := by
  have key : ∀ (a : App) (now start : ℚ), a.start_time = some start → 0 < now - start →
      (a.update_typing_speed now).typing_speed =
        ((a.chars_typed : ℚ) / 5) / ((now - start) / 60) := by
    intro a now start hs he
    have hne : now - start ≠ 0 := ne_of_gt he
    simp only [App.update_typing_speed, hs, if_pos he]
    field_simp
  refine ⟨key, fun a now start hs he hc => ?_⟩
  rw [key a now start hs (by rw [he]; norm_num), he, hc]
  norm_num

/-- C8 counterexample: in the `Connected` state pressing `q` (or `Q`)
does not set the quit flag — the character is appended to the input
buffer instead, so the quit command does not cause terminal exit from
`Connected`. -/
theorem quit_in_connected_counterexample :
    (handle_key_event (KeyCode.Chr 'q') { App.new [] with state := .Connected } 0).1.should_quit
      = false ∧
    (handle_key_event (KeyCode.Chr 'q') { App.new [] with state := .Connected } 0).1.current_input
      = ['q'] ∧
    (handle_key_event (KeyCode.Chr 'Q') { App.new [] with state := .Connected } 0).1.should_quit
      = false := by
  decide

/-- C8 (amended): the key-event handler sets the quit flag on `q`/`Q` in
the `Welcome`, `Connecting` and `Disconnected` states; in `Connected` no
key sets the quit flag — `q`/`Q` are ordinary input characters there,
and quitting requires first returning to `Welcome` (Esc). -/
theorem quit_flag_by_state :
    (∀ (a : App) (now : ℚ), a.state = .Welcome →
      (handle_key_event (KeyCode.Chr 'q') a now).1.should_quit = true ∧
      (handle_key_event (KeyCode.Chr 'Q') a now).1.should_quit = true) ∧
    (∀ (a : App) (now : ℚ), a.state = .Connecting →
      (handle_key_event (KeyCode.Chr 'q') a now).1.should_quit = true ∧
      (handle_key_event (KeyCode.Chr 'Q') a now).1.should_quit = true) ∧
    (∀ (a : App) (now : ℚ), a.state = .Disconnected →
      (handle_key_event (KeyCode.Chr 'q') a now).1.should_quit = true ∧
      (handle_key_event (KeyCode.Chr 'Q') a now).1.should_quit = true) ∧
    (∀ (a : App) (now : ℚ) (key : KeyCode), a.state = .Connected →
      (handle_key_event key a now).1.should_quit = a.should_quit) := by
  refine ⟨fun a now h => ?_, fun a now h => ?_, fun a now h => ?_, fun a now key h => ?_⟩
  · constructor <;> simp [handle_key_event, h]
  · constructor <;> simp [handle_key_event, h]
  · constructor <;> simp [handle_key_event, h]
  · cases key with
    | Chr c => simp [handle_key_event, h]
    | Backspace => simp [handle_key_event, h]
    | Enter => simpa [handle_key_event, h] using send_word_should_quit a now
    | Esc => simp [handle_key_event, h]
    | F n => by_cases hn : n = 1 <;> simp [handle_key_event, h, hn, App.toggle_help]
    | Other => simp [handle_key_event, h]

/-! ### Length bounds for the address parsers (used for the
254-character rejection property) -/

/-- A successful `readNumber` consumes at most `maxDigits` characters. -/
lemma readNumber_consumed {radix maxDigits maxVal : Nat} {az : Bool}
    {s : List Char} {v : Nat} {rest : List Char}
    (h : readNumber radix maxDigits maxVal az s = some (v, rest)) :
    s.length ≤ maxDigits + rest.length := by
  simp only [readNumber] at h
  split at h
  · exact Option.noConfusion h
  case isFalse hempty =>
    split at h
    · exact Option.noConfusion h
    case isFalse hcount =>
      split at h
      · exact Option.noConfusion h
      split at h
      · exact Option.noConfusion h
      rw [Option.some.injEq, Prod.mk.injEq] at h
      obtain ⟨-, hr⟩ := h
      have hsplit := congrArg List.length
        (List.takeWhile_append_dropWhile (fun c => (digitVal radix c).isSome) s)
      rw [List.length_append] at hsplit
      rw [← hr]
      omega

/-- `readGivenChar` consumes exactly one character. -/
lemma readGivenChar_consumed {c : Char} {s rest : List Char}
    (h : readGivenChar c s = some rest) : s.length = rest.length + 1 := by
  cases s with
  | nil => exact Option.noConfusion h
  | cons d s' =>
    simp only [readGivenChar] at h
    split at h
    · rw [Option.some.injEq] at h
      subst h
      simp
    · exact Option.noConfusion h

/-- A successful IPv4 read consumes at most 15 characters. -/
lemma readIpv4Addr_consumed {s : List Char} {q : Nat × Nat × Nat × Nat}
    {rest : List Char} (h : readIpv4Addr s = some (q, rest)) :
    s.length ≤ 15 + rest.length := by
  unfold readIpv4Addr at h
  rcases h1 : readNumber 10 3 255 false s with _ | ⟨a, s1⟩ <;> simp only [h1] at h
  · exact Option.noConfusion h
  rcases h2 : readGivenChar '.' s1 with _ | s2 <;> simp only [h2] at h
  · exact Option.noConfusion h
  rcases h3 : readNumber 10 3 255 false s2 with _ | ⟨b, s3⟩ <;> simp only [h3] at h
  · exact Option.noConfusion h
  rcases h4 : readGivenChar '.' s3 with _ | s4 <;> simp only [h4] at h
  · exact Option.noConfusion h
  rcases h5 : readNumber 10 3 255 false s4 with _ | ⟨c, s5⟩ <;> simp only [h5] at h
  · exact Option.noConfusion h
  rcases h6 : readGivenChar '.' s5 with _ | s6 <;> simp only [h6] at h
  · exact Option.noConfusion h
  rcases h7 : readNumber 10 3 255 false s6 with _ | ⟨d, s7⟩ <;> simp only [h7] at h
  · exact Option.noConfusion h
  rw [Option.some.injEq, Prod.mk.injEq] at h
  obtain ⟨-, hr⟩ := h
  have b1 := readNumber_consumed h1
  have b2 := readGivenChar_consumed h2
  have b3 := readNumber_consumed h3
  have b4 := readGivenChar_consumed h4
  have b5 := readNumber_consumed h5
  have b6 := readGivenChar_consumed h6
  have b7 := readNumber_consumed h7
  subst hr
  omega

/-- A successful `readSeparated` consumes at most one character more
than its inner reader. -/
lemma readSeparated_consumed {α : Type} {B : Nat} {i : Nat}
    {inner : List Char → Option (α × List Char)} {s : List Char}
    {x : α} {rest : List Char}
    (hb : ∀ s' x' rest', inner s' = some (x', rest') → s'.length ≤ B + rest'.length)
    (h : readSeparated i inner s = some (x, rest)) :
    s.length ≤ B + 1 + rest.length := by
  unfold readSeparated at h
  split at h
  · have := hb s x rest h
    omega
  · split at h
    case h_1 s' =>
      have := hb s' x rest h
      simp only [List.length_cons]
      omega
    case h_2 => exact Option.noConfusion h

/-- `readGroups fuel i` consumes at most `5 * fuel + 16` characters. -/
lemma readGroups_consumed : ∀ (fuel i : Nat) (s : List Char) (gs : List Nat)
    (f : Bool) (r : List Char), readGroups fuel i s = (gs, f, r) →
    s.length ≤ 5 * fuel + 16 + r.length := by
  intro fuel
  induction fuel with
  | zero =>
    intro i s gs f r hres
    simp only [readGroups, Prod.mk.injEq] at hres
    obtain ⟨-, -, hr⟩ := hres
    subst hr
    omega
  | succ n ih =>
    intro i s gs f r hres
    simp only [readGroups] at hres
    rcases hv4 : (if 1 ≤ n then readSeparated i readIpv4Addr s else none)
      with _ | ⟨⟨a, b, c, d⟩, rest⟩ <;> rw [hv4] at hres <;> dsimp only at hres
    · rcases hg : readSeparated i (readNumber 16 4 0xFFFF true) s
        with _ | ⟨g, rest⟩ <;> rw [hg] at hres <;> dsimp only at hres
      · simp only [Prod.mk.injEq] at hres
        obtain ⟨-, -, hr⟩ := hres
        subst hr
        omega
      · have hstep : s.length ≤ 4 + 1 + rest.length :=
          readSeparated_consumed (fun s' x' r' h' => readNumber_consumed h') hg
        rcases hrec : readGroups n (i + 1) rest with ⟨gs', f', r'⟩
        rw [hrec] at hres
        simp only [Prod.mk.injEq] at hres
        obtain ⟨-, -, hr⟩ := hres
        subst hr
        have := ih (i + 1) rest gs' f' r' hrec
        omega
    · have hsome : readSeparated i readIpv4Addr s = some ((a, b, c, d), rest) := by
        by_cases hn : 1 ≤ n
        · rwa [if_pos hn] at hv4
        · rw [if_neg hn] at hv4
          exact Option.noConfusion hv4
      have hstep : s.length ≤ 15 + 1 + rest.length :=
        readSeparated_consumed (fun s' x' r' h' => readIpv4Addr_consumed h') hsome
      simp only [Prod.mk.injEq] at hres
      obtain ⟨-, -, hr⟩ := hres
      subst hr
      omega

/-- A successful IPv6 read consumes at most 114 characters. -/
lemma readIpv6Addr_consumed {s : List Char} {g : List Nat} {rest : List Char}
    (h : readIpv6Addr s = some (g, rest)) : s.length ≤ 114 + rest.length := by
  unfold readIpv6Addr at h
  rcases hg1 : readGroups 8 0 s with ⟨head, headIpv4, s1⟩
  have hhead := readGroups_consumed 8 0 s head headIpv4 s1 hg1
  rw [hg1] at h
  simp only at h
  split at h
  · rw [Option.some.injEq, Prod.mk.injEq] at h
    obtain ⟨-, hr⟩ := h
    subst hr
    omega
  split at h
  · exact Option.noConfusion h
  rcases hc1 : readGivenChar ':' s1 with _ | s2 <;> rw [hc1] at h
  · exact Option.noConfusion h
  simp only at h
  rcases hc2 : readGivenChar ':' s2 with _ | s3 <;> rw [hc2] at h
  · exact Option.noConfusion h
  simp only at h
  rcases hg2 : readGroups (8 - (head.length + 1)) 0 s3 with ⟨tail, f2, s4⟩
  have htail := readGroups_consumed (8 - (head.length + 1)) 0 s3 tail f2 s4 hg2
  rw [hg2] at h
  simp only at h
  rw [Option.some.injEq, Prod.mk.injEq] at h
  obtain ⟨-, hr⟩ := h
  have e1 := readGivenChar_consumed hc1
  have e2 := readGivenChar_consumed hc2
  subst hr
  omega

/-- A string accepted by the IPv4 parser has at most 15 characters. -/
lemma parseIpv4_length {s : List Char} (h : parseIpv4 s = true) : s.length ≤ 15 := by
  unfold parseIpv4 at h
  rcases hp : readIpv4Addr s with _ | ⟨q, rest⟩ <;> rw [hp] at h
  · exact Bool.noConfusion h
  · rcases rest with _ | ⟨c, rest⟩
    · simpa using readIpv4Addr_consumed hp
    · exact Bool.noConfusion h

/-- A string accepted by the IPv6 parser has at most 114 characters. -/
lemma parseIpv6_length {s : List Char} (h : parseIpv6 s = true) : s.length ≤ 114 := by
  unfold parseIpv6 at h
  rcases hp : readIpv6Addr s with _ | ⟨g, rest⟩ <;> rw [hp] at h
  · exact Bool.noConfusion h
  · rcases rest with _ | ⟨c, rest⟩
    · simpa using readIpv6Addr_consumed hp
    · exact Bool.noConfusion h

/-- Every character takes at least one UTF-8 byte. -/
lemma length_le_utf8Len (s : List Char) : s.length ≤ utf8Len s := by
  induction s with
  | nil => simp [utf8Len]
  | cons c cs ih =>
    have hc := Char.utf8Size_pos c
    simp only [utf8Len, List.map_cons, List.sum_cons, List.length_cons] at ih ⊢
    omega

instance (addr : List Char) : Decidable (specHostnameChars addr) := by
  unfold specHostnameChars
  infer_instance

instance (addr : List Char) : Decidable (specAllowsChars addr) := by
  unfold specAllowsChars
  infer_instance

/-- The validator agrees with the byte-measured hostname rule. -/
lemma is_valid_iff_specBytes (addr : List Char) :
    is_valid_ip_or_hostname addr = true ↔ specAllowsBytes addr := by
  unfold is_valid_ip_or_hostname specAllowsBytes specHostnameBytes
  by_cases h4 : parseIpv4 addr = true
  · simp [h4]
  · by_cases h6 : parseIpv6 addr = true
    · simp [h4, h6]
    · rw [if_neg h4, if_neg h6]
      by_cases hemp : addr = []
      · subst hemp
        simp [h4, h6]
      · by_cases hlen : 253 < utf8Len addr
        · have hcond : (addr.isEmpty || decide (253 < utf8Len addr)) = true := by
            simp [hlen]
          rw [hcond, if_pos rfl]
          constructor
          · intro hf
            exact Bool.noConfusion hf
          · rintro (hf | hf | ⟨-, hle', -⟩)
            · exact absurd hf h4
            · exact absurd hf h6
            · omega
        · have hle : utf8Len addr ≤ 253 := by omega
          have hcond : (addr.isEmpty || decide (253 < utf8Len addr)) = false := by
            simp [List.isEmpty_iff, hemp, hlen]
          rw [hcond]
          simp only [Bool.false_eq_true, if_false]
          simp only [Bool.and_eq_true, List.all_eq_true, Bool.or_eq_true,
            beq_iff_eq, Bool.not_eq_true', beq_eq_false_iff_ne]
          constructor
          · rintro ⟨⟨⟨⟨hall, hh1⟩, hl1⟩, hh2⟩, hl2⟩
            exact Or.inr (Or.inr
              ⟨hemp, hle, fun c hc => or_assoc.mp (hall c hc), hh2, hh1, hl2, hl1⟩)
          · rintro (hf | hf | ⟨-, -, hall, hh2, hh1, hl2, hl1⟩)
            · exact absurd hf h4
            · exact absurd hf h6
            · exact ⟨⟨⟨⟨fun c hc => or_assoc.mpr (hall c hc), hh1⟩, hl1⟩, hh2⟩, hl2⟩

/-- C4 counterexample: the validator diverges from the spec's stated
set in both directions.  It accepts `bad-.com` — the code checks only
the first and last character of the whole string, and `bad-.com` starts
with `b` and ends with `m` — although the spec lists `bad-.com` as
rejected.  And under the spec's "≤253 characters" reading it rejects the
127-character hostname `éé…é` (every character alphanumeric, no
leading/trailing `.`/`-`), because `addr.len()` counts UTF-8 bytes and
`é` takes two, giving 254 > 253. -/
theorem host_validator_spec_mismatch :
    is_valid_ip_or_hostname "bad-.com".toList = true ∧
    specAllowsChars (List.replicate 127 'é') ∧
    is_valid_ip_or_hostname (List.replicate 127 'é') = false := by
  refine ⟨by decide, ?_, by decide⟩
  refine Or.inr (Or.inr ⟨by decide, by decide, ?_, by decide, by decide, by decide, by decide⟩)
  intro c hc
  rw [List.eq_of_mem_replicate hc]
  left
  decide

/-- C4 (amended): the validator accepts exactly the IPv4 literals, IPv6
literals, and hostnames that are non-empty, at most 253 UTF-8 bytes (the
spec says "characters"; the code measures bytes), contain only
alphanumerics, `.`, `-`, and do not start or end with `.` or `-` as the
whole string's first or last character.  In particular it accepts
`127.0.0.1`, `::1`, `example.com` and also `bad-.com` (only the first
and last character are checked, not per-label structure), and rejects
`-bad.com`, the empty string, and every 254-character string. -/
theorem host_validator_accepts_exactly :
    (∀ addr, is_valid_ip_or_hostname addr = true ↔ specAllowsBytes addr) ∧
    is_valid_ip_or_hostname "127.0.0.1".toList = true ∧
    is_valid_ip_or_hostname "::1".toList = true ∧
    is_valid_ip_or_hostname "example.com".toList = true ∧
    is_valid_ip_or_hostname "bad-.com".toList = true ∧
    is_valid_ip_or_hostname "-bad.com".toList = false ∧
    is_valid_ip_or_hostname [] = false ∧
    (∀ addr : List Char, addr.length = 254 → is_valid_ip_or_hostname addr = false) := by
  refine ⟨is_valid_iff_specBytes, by decide, by decide, by decide, by decide, by decide,
    by decide, ?_⟩
  intro addr hlen
  have h4 : ¬ parseIpv4 addr = true := by
    intro hx
    have := parseIpv4_length hx
    omega
  have h6 : ¬ parseIpv6 addr = true := by
    intro hx
    have := parseIpv6_length hx
    omega
  have hu : 253 < utf8Len addr := by
    have := length_le_utf8Len addr
    omega
  unfold is_valid_ip_or_hostname
  rw [if_neg h4, if_neg h6]
  have hc : (addr.isEmpty || decide (253 < utf8Len addr)) = true := by
    simp [hu]
  rw [hc]
  simp
